import Mathlib

/-!
A shallow embedding of the synchronization / live-ingestion core of the
`teleye` repository (FastAPI + Celery + Telethon + Elasticsearch), together
with proofs about the claims of its specification.

Conventions of the embedding:
* Python `Optional` values become `Option`; Python truthiness of an optional
  value `x` is `x ≠ None ∧ x ≠ 0/""/[]` and is spelled out at each use site.
* Network / storage effects are oracles collected in `Teleye.Env`; a call that
  can raise is an `Except Unit` (or `Except String`) value, `.error` standing
  for an exception.  All oracles are deterministic functions of their
  arguments, which matches one fixed external world per run.
* Machine integers: Telegram message ids are positive and small, so they are
  `Nat`; channel ids are `Int` (Telethon channel ids can be negative).
* `datetime.now()` is the environment's `now` clock.
* Python's `int((current / total) * 100)` (float divide, truncate) is modeled
  as exact `Nat` floor division `current * 100 / total`: for the magnitudes a
  task can emit the float truncation coincides with the exact floor.
-/

namespace Teleye

/-- A message sender entity, as `process_message` probes it with `hasattr`:
a user carries `first_name`/`last_name`, a channel/chat carries `title`,
anything else may carry `username` (sync_service.py lines 40-51). -/
inductive Sender
  | user (firstName : Option String) (lastName : Option String)
  | channelEnt (title : Option String)
  | other (username : Option String)
  deriving DecidableEq, Repr

/-- Message media, decided by `isinstance` probes: `MessageMediaPhoto` (whose
`.photo` field is modeled as always set), `MessageMediaDocument` with a mime
type (empty string = falsy `mime_type`), or any unsupported media kind. -/
inductive Media
  | photo (photoId : Nat)
  | document (docId : Nat) (mimeType : String)
  | unsupported
  deriving DecidableEq, Repr

/-- A raw Telegram message as the sync code reads it: `id`, `sender`,
`sender_id`, `date`, `text`, `media`. -/
structure TgMessage where
  id : Nat
  sender : Option Sender
  sender_id : Option Int
  date : Option Nat
  text : Option String
  media : Option Media
  deriving DecidableEq, Repr

/-- Embeds `core.models.MessageInfo`, the canonical record built by the processing
pipeline. -/
structure MessageInfo where
  channel_id : Int
  message_id : Nat
  sender_name : String
  time : Option Nat
  text : String
  images : List String
  image_urls : List String
  images_data : List (List Nat)
  indexed_at : Nat
  deriving DecidableEq, Repr

/-- The document actually sent to the index: `message.model_dump()` with
`images_data` popped (smart_sync_service.py lines 163-165, sync_tasks.py
lines 196-199, listener_service.py lines 315-317). -/
structure Doc where
  channel_id : Int
  message_id : Nat
  sender_name : String
  time : Option Nat
  text : String
  images : List String
  image_urls : List String
  indexed_at : Nat
  deriving DecidableEq, Repr

/-- Computes `model_dump()` followed by `pop("images_data")`. -/
def MessageInfo.toDoc (m : MessageInfo) : Doc :=
  ⟨m.channel_id, m.message_id, m.sender_name, m.time, m.text, m.images,
    m.image_urls, m.indexed_at⟩

/-- The external world: platform, object storage and index oracles.
`.error ()` from an oracle stands for the call raising an exception. -/
structure Env where
  /-- `client.download_media(media, file=bytes)`: raises, returns falsy
  bytes (`none`), or returns bytes. -/
  downloadMedia : Media → Except Unit (Option (List Nat))
  /-- `minio_manager.upload_image(bytes, object_name, content_type)`. -/
  uploadImage : List Nat → String → String → Except Unit String
  /-- `client.get_entity(sender_id)` (listener_service.py line 388). -/
  getEntity : Int → Except Unit Sender
  /-- `elasticsearch.helpers.async_bulk` outcome for a given action list:
  `(success_count, failed_count)` or a raised exception. -/
  esBulk : List (String × Doc) → Except String (Nat × Nat)
  /-- `datetime.now()`. -/
  now : Nat
  /-- whether `get_messages` on this channel succeeds at all (an inaccessible
  channel raises; `get_last_message_id_telegram` catches that). -/
  tgAccessible : Bool

/-- Sender display-name resolution shared by both processors
(sync_service.py lines 39-51, listener_service.py lines 191-204):
`first_name or ""` plus `" " + last_name` when `last_name` is truthy;
else `title or ""`; else `username or ""`. -/
def sender_display_name : Sender → String
  | .user f l =>
      let name := f.getD ""
      match l with
      | some s => if s ≠ "" then name ++ " " ++ s else name
      | none => name
  | .channelEnt t => t.getD ""
  | .other u => u.getD ""

/-- File extension and content type for an image-like media
(sync_service.py lines 70-85): defaults `jpg`/`image/jpeg`, refined by
substring probes of a document's mime type. -/
def media_ext_ctype : Media → String × String
  | .document _ mime =>
      if mime ≠ "" then
        if (mime.splitOn "png").length > 1 then ("png", "image/png")
        else if (mime.splitOn "gif").length > 1 then ("gif", "image/gif")
        else if (mime.splitOn "webp").length > 1 then ("webp", "image/webp")
        else ("jpg", "image/jpeg")
      else ("jpg", "image/jpeg")
  | _ => ("jpg", "image/jpeg")

/-- Tests `isinstance(media, (MessageMediaPhoto, MessageMediaDocument))`. -/
def Media.isImageLike : Media → Bool
  | .photo _ => true
  | .document _ _ => true
  | .unsupported => false

/-- The download-and-upload block of `process_message` (sync_service.py
lines 63-107): download raises → the inner handler logs and re-raises
(`.error`); falsy bytes → nothing stored; else upload to MinIO under
`channel_<cid>/message_<mid>.<ext>` and record `(images, image_urls,
images_data)`. -/
def download_and_upload (env : Env) (m : Media) (channel_id : Int)
    (msg_id : Nat) : Except Unit (List String × List String × List (List Nat)) :=
  match env.downloadMedia m with
  | .error e => .error e
  | .ok none => .ok ([], [], [])
  | .ok (some media_bytes) =>
      let extc := media_ext_ctype m
      let ext := extc.1
      let content_type := extc.2
      let object_name := s!"channel_{channel_id}/message_{msg_id}.{ext}"
      match env.uploadImage media_bytes object_name content_type with
      | .error e => .error e
      | .ok url => .ok ([object_name], [url], [media_bytes])

/-- The lightweight non-durable marker recorded when media is present but not
downloaded (sync_service.py lines 108-128): a photo marker, or a document
marker when its mime type is truthy and starts with `image/`. -/
def inline_marker : Media → List String
  | .photo pid => [s!"telegram_photo_{pid}"]
  | .document did mime =>
      if mime ≠ "" && mime.startsWith "image/" then
        [s!"telegram_document_{did}"]
      else []
  | .unsupported => []

/-- Embeds `services.sync_service.process_message` (sync_service.py lines 15-144).
The whole body sits in one `try`; any exception (in particular the re-raised
media download error, line 107) is caught at line 142 and the function
returns `None`.  Hence the embedded function is total with result
`Option MessageInfo`, `none` standing for "failed, no record". -/
def process_message (env : Env) (tg_msg : TgMessage) (channel_id : Int)
    (sync_images : Bool) (has_minio : Bool) : Option MessageInfo :=
  let sender_name :=
    match tg_msg.sender with
    | some s => sender_display_name s
    | none => ""
  let mediaOut : Except Unit (List String × List String × List (List Nat)) :=
    match tg_msg.media with
    | some m =>
        if sync_images && has_minio then
          if m.isImageLike then download_and_upload env m channel_id tg_msg.id
          else .ok ([], [], [])
        else if !sync_images then
          .ok ([], inline_marker m, [])
        else .ok ([], [], [])
    | none => .ok ([], [], [])
  match mediaOut with
  | .error _ => none
  | .ok out =>
      some { channel_id := channel_id
             message_id := tg_msg.id
             sender_name := sender_name
             time := tg_msg.date
             text := tg_msg.text.getD ""
             images := out.1
             image_urls := out.2.1
             images_data := if sync_images then out.2.2 else []
             indexed_at := env.now }

/-! ## The search index and bulk upserts -/

/-- The `messages` index: an association list from document id to document.
A bulk index action with an explicit `_id` is an idempotent upsert: it
overwrites the document at that id in place, or appends a new one. -/
abbrev Index := List (String × Doc)

/-- One keyed upsert: overwrite every entry holding the key, else append. -/
def upsert (idx : Index) (k : String) (v : Doc) : Index :=
  if idx.any (fun p => p.1 = k) then
    idx.map (fun p => if p.1 = k then (k, v) else p)
  else idx ++ [(k, v)]

/-- Applying a whole bulk-action list to the index, in order. -/
def bulk_upsert (idx : Index) (actions : List (String × Doc)) : Index :=
  actions.foldl (fun acc a => upsert acc a.1 a.2) idx

/-- Embeds `services.elasticsearch.execute_elasticsearch_bulk_insert`
(elasticsearch.py lines 10-39): forwards `async_bulk`'s
`(success, failed)` statistics, and converts any raised exception into
`(0, len(actions))` instead of propagating it. -/
def execute_elasticsearch_bulk_insert (env : Env)
    (actions : List (String × Doc)) : Nat × Nat :=
  match env.esBulk actions with
  | .ok sf => sf
  | .error _ => (0, actions.length)

/-- The document id `f"{channel_id}_{message_id}"`. -/
def mkDocId (cid : Int) (mid : Nat) : String := s!"{cid}_{mid}"

/-- The bulk-action list built from processed messages: each message is
submitted under document id `"<channel_id>_<message_id>"`
(smart_sync_service.py lines 161-173). -/
def build_actions (processed : List MessageInfo) : List (String × Doc) :=
  processed.map (fun m => (mkDocId m.channel_id m.message_id, m.toDoc))

/-! ## Platform reads -/

/-- The messages of a channel older than `offset_id` (all of them when
`offset_id = 0`), matching Telethon's `offset_id` semantics.  The channel is
its full history, newest first. -/
def Rem (channel : List TgMessage) (offset_id : Nat) : List TgMessage :=
  if offset_id = 0 then channel
  else channel.filter (fun m => m.id < offset_id)

/-- Embeds `client.get_messages(peer, limit, offset_id)`: a newest-first page of at
most `lim` messages strictly older than `offset_id` (`0` = from the top). -/
def get_messages (channel : List TgMessage) (lim : Nat) (offset_id : Nat) :
    List TgMessage :=
  (Rem channel offset_id).take lim

/-- Embeds `get_last_message_id_telegram` (smart_sync_service.py lines 15-43):
`get_messages(peer, limit=1)`, `None` when the page is empty or the call
raised (inaccessible channel). -/
def get_last_message_id_telegram (env : Env) (channel : List TgMessage) :
    Option Nat :=
  if env.tgAccessible then
    match get_messages channel 1 0 with
    | [] => none
    | m :: _ => some m.id
  else none

/-- Embeds `get_last_message_id_elasticsearch` (smart_sync_service.py lines 46-80):
the highest `message_id` indexed for the channel, `None` when there is none. -/
def get_last_message_id_elasticsearch (idx : Index) (channel_id : Int) :
    Option Nat :=
  ((idx.filter (fun p => p.2.channel_id = channel_id)).map
    (fun p => p.2.message_id)).max?

/-! ## Backfill: `sync_missing_messages` -/

/-- The mutable state of the backfill loop, together with two observation
traces: `attempted` records every message handed to `process_message`
(in order), `fetched` every message returned by a `get_messages` page. -/
structure BackfillState where
  processedInfos : List MessageInfo
  images_downloaded : Nat
  images_failed : Nat
  attempted : List TgMessage
  fetched : List TgMessage
  deriving DecidableEq, Repr

/-- The inner `for tg_msg in telegram_messages` loop of
`sync_missing_messages` (smart_sync_service.py lines 125-150): stop at the
first message with `id <= after_message_id` (returning `found_cutoff =
true`); otherwise call `process_message`, append a produced record and count
its images, skip a `None` result, and continue.  `process_message` never
raises (it converts every exception into `None`), so the `except` branch at
lines 146-150 — the only place `images_failed` is incremented — never runs. -/
def backfill_page (env : Env) (channel_id : Int) (after_message_id : Nat)
    (sync_images : Bool) (has_minio : Bool) :
    List TgMessage → BackfillState → BackfillState × Bool
  | [], st => (st, false)
  | m :: rest, st =>
      if m.id ≤ after_message_id then (st, true)
      else
        let st1 := { st with attempted := st.attempted ++ [m] }
        let st2 :=
          match process_message env m channel_id sync_images has_minio with
          | some info =>
              { st1 with
                processedInfos := st1.processedInfos ++ [info]
                images_downloaded := st1.images_downloaded +
                  (if sync_images && info.image_urls != [] then
                    info.image_urls.length
                  else 0) }
          | none => st1
        backfill_page env channel_id after_message_id sync_images has_minio
          rest st2

/-- The outer `while not found_cutoff` loop of `sync_missing_messages`
(smart_sync_service.py lines 117-155): fetch a page of 100 at the current
offset, stop on an empty page, process the page, and continue from the last
fetched id.  `fuel` bounds the iteration count; `channel.length + 1` always
suffices for a descending channel. -/
def backfill_loop (env : Env) (channel : List TgMessage) (channel_id : Int)
    (after_message_id : Nat) (sync_images : Bool) (has_minio : Bool) :
    Nat → Nat → BackfillState → BackfillState
  | 0, _, st => st
  | fuel + 1, offset_id, st =>
      match get_messages channel 100 offset_id with
      | [] => st
      | p :: ps =>
          let page := p :: ps
          let st1 := { st with fetched := st.fetched ++ page }
          let out := backfill_page env channel_id after_message_id sync_images
            has_minio page st1
          if out.2 then out.1
          else
            backfill_loop env channel channel_id after_message_id sync_images
              has_minio fuel ((page.getLast (by simp [page])).id) out.1

/-- The aggregate result dictionary of `sync_missing_messages`
(smart_sync_service.py lines 179-185). -/
structure BackfillResult where
  messages_processed : Nat
  images_downloaded : Nat
  images_failed : Nat
  elasticsearch_success : Nat
  elasticsearch_failed : Nat
  deriving DecidableEq, Repr

/-- Embeds `sync_missing_messages` (smart_sync_service.py lines 83-191): run the
fetch loop from offset 0, then bulk-upsert every processed record under
document id `"<channel_id>_<message_id>"`.  Returns the counts, the updated
index, and the loop state (with its observation traces). -/
def sync_missing_messages (env : Env) (channel : List TgMessage)
    (channel_id : Int) (after_message_id : Nat) (sync_images : Bool)
    (has_minio : Bool) (idx : Index) :
    BackfillResult × Index × BackfillState :=
  let st := backfill_loop env channel channel_id after_message_id sync_images
    has_minio (channel.length + 1) 0 ⟨[], 0, 0, [], []⟩
  let actions := build_actions st.processedInfos
  let esPair :=
    if st.processedInfos ≠ [] then
      execute_elasticsearch_bulk_insert env actions
    else (0, 0)
  let idx1 := if st.processedInfos ≠ [] then bulk_upsert idx actions else idx
  (⟨st.processedInfos.length, st.images_downloaded, st.images_failed,
    esPair.1, esPair.2⟩, idx1, st)

/-! ## Reconciliation: `smart_sync_channel` -/

/-- The per-channel reconcile action. -/
inductive Action
  | skip
  | full_sync
  | incremental_sync
  | error
  deriving DecidableEq, Repr

/-- The per-channel result dictionary of `smart_sync_channel`
(smart_sync_service.py lines 232-306).  Fields absent from a given return
dictionary are `none`. -/
structure SmartSyncOutcome where
  channel_id : Int
  action : Action
  reason : String
  success : Bool
  messages_processed : Option Nat
  images_downloaded : Option Nat
  images_failed : Option Nat
  elasticsearch_success : Option Nat
  elasticsearch_failed : Option Nat
  deriving DecidableEq, Repr

/-- Embeds `smart_sync_channel` (smart_sync_service.py lines 194-315): compare the
platform's and the index's last message ids and act on the comparison, in the
source's order of early returns.  The second component is the index after the
call. -/
def smart_sync_channel (env : Env) (channel : List TgMessage)
    (channel_id : Int) (sync_images : Bool) (has_minio : Bool) (idx : Index) :
    SmartSyncOutcome × Index :=
  let tg_last_id := get_last_message_id_telegram env channel
  let es_last_id := get_last_message_id_elasticsearch idx channel_id
  match tg_last_id with
  | none =>
      (⟨channel_id, .skip, "Channel not accessible on Telegram", false,
        none, none, none, none, none⟩, idx)
  | some t =>
      match es_last_id with
      | none =>
          let r := sync_missing_messages env channel channel_id 0 sync_images
            has_minio idx
          (⟨channel_id, .full_sync, "No data in Elasticsearch", true,
            some r.1.messages_processed, some r.1.images_downloaded,
            some r.1.images_failed, some r.1.elasticsearch_success,
            some r.1.elasticsearch_failed⟩, r.2.1)
      | some e =>
          if t = e then
            (⟨channel_id, .skip, "Last message IDs are equal", true,
              some 0, none, none, none, none⟩, idx)
          else if t > e then
            let r := sync_missing_messages env channel channel_id e
              sync_images has_minio idx
            let lo := e + 1
            (⟨channel_id, .incremental_sync,
              s!"Synced messages from {lo} to {t}", true,
              some r.1.messages_processed, some r.1.images_downloaded,
              some r.1.images_failed, some r.1.elasticsearch_success,
              some r.1.elasticsearch_failed⟩, r.2.1)
          else
            (⟨channel_id, .skip,
              "Elasticsearch has higher message ID than Telegram", true,
              some 0, none, none, none, none⟩, idx)

/-- Modelled from the spec: the reconciliation decision table of §4.2 / §8
(`remote=None → skip`; `index=None → full_sync`; `equal → skip`;
`remote > index → incremental_sync`; `index > remote → skip`), written from
the spec's words to be compared with the source's `smart_sync_channel`. -/
def spec_decision (remote index_last : Option Nat) : Action :=
  match remote with
  | none => .skip
  | some r =>
      match index_last with
      | none => .full_sync
      | some i =>
          if r = i then .skip
          else if r > i then .incremental_sync
          else .skip

/-- C1: for every channel, `smart_sync_channel` follows the spec's decision
table in strict order — unobtainable remote id → `skip` with the
not-accessible reason and no index write; no indexed id → `full_sync`
backfilling from cutoff 0; equal ids → `skip` with zero messages processed
and no index write; remote id greater → `incremental_sync` backfilling with
the indexed id as exclusive cutoff; indexed id greater (anomaly) → `skip`
with a warning reason and no index write (never deletes or truncates). -/
theorem smart_sync_channel_follows_decision_table (env : Env)
    (channel : List TgMessage) (channel_id : Int)
    (sync_images has_minio : Bool) (idx : Index) :
    let tg := get_last_message_id_telegram env channel
    let es := get_last_message_id_elasticsearch idx channel_id
    let out := smart_sync_channel env channel channel_id sync_images has_minio idx
    out.1.action = spec_decision tg es
    ∧ (tg = none →
        out.1.reason = "Channel not accessible on Telegram" ∧ out.2 = idx)
    ∧ (∀ t, tg = some t → es = none →
        out.2 = (sync_missing_messages env channel channel_id 0 sync_images
          has_minio idx).2.1)
    ∧ (∀ t, tg = some t → es = some t →
        out.1.messages_processed = some 0 ∧ out.2 = idx)
    ∧ (∀ t e, tg = some t → es = some e → e < t →
        out.2 = (sync_missing_messages env channel channel_id e sync_images
          has_minio idx).2.1)
    ∧ (∀ t e, tg = some t → es = some e → t < e →
        out.1.action = .skip
        ∧ out.1.reason = "Elasticsearch has higher message ID than Telegram"
        ∧ out.2 = idx) := by
  cases htg : get_last_message_id_telegram env channel with
  | none =>
      simp [smart_sync_channel, htg, spec_decision]
  | some t =>
      cases hes : get_last_message_id_elasticsearch idx channel_id with
      | none =>
          simp [smart_sync_channel, htg, hes, spec_decision]
      | some e =>
          by_cases hteq : t = e
          · subst hteq
            simp [smart_sync_channel, htg, hes, spec_decision]
          · by_cases hlt : e < t
            · have hgt : t > e := hlt
              simp [smart_sync_channel, htg, hes, spec_decision, hteq, hgt,
                Nat.lt_asymm hlt]
              exact ⟨fun h => by omega, by omega⟩
            · have het : t < e := by omega
              simp [smart_sync_channel, htg, hes, spec_decision, hteq,
                Nat.lt_asymm het, het]

/-- C10 (implicit): `execute_elasticsearch_bulk_insert` never propagates an
exception — it always hands its caller a `(success, failed)` pair: the pair
reported by the bulk helper when it returns, and `(0, len(actions))` when the
underlying bulk operation raises. -/
theorem execute_elasticsearch_bulk_insert_total (env : Env)
    (actions : List (String × Doc)) :
    (∀ err, env.esBulk actions = .error err →
        execute_elasticsearch_bulk_insert env actions = (0, actions.length))
    ∧ (∀ sf, env.esBulk actions = .ok sf →
        execute_elasticsearch_bulk_insert env actions = sf) := by
  constructor
  · intro err h
    simp [execute_elasticsearch_bulk_insert, h]
  · intro sf h
    simp [execute_elasticsearch_bulk_insert, h]

/-! ## Idempotence of keyed bulk upserts

`lastVal l k` is the value the last action of `l` writes at key `k`.  When
every key of `l` is already present in the index, a bulk upsert only rewrites
entries in place (`bulk_upsert_subset_keys`), and every entry of
`bulk_upsert idx l` at a key written by `l` already holds that last written
value (`bulk_upsert_wellWritten`) — so running the same bulk again changes
nothing. -/

/-- The value of the last action of `l` at key `k`, if any. -/
def lastVal (l : List (String × Doc)) (k : String) : Option Doc :=
  l.foldl (fun acc a => if a.1 = k then some a.2 else acc) none

theorem lastVal_nil (k : String) : lastVal [] k = none := rfl

theorem lastVal_cons (a : String × Doc) (l : List (String × Doc)) (k : String) :
    lastVal (a :: l) k =
      match lastVal l k with
      | some v => some v
      | none => if a.1 = k then some a.2 else none := by
  have aux : ∀ (t : List (String × Doc)) (acc : Option Doc),
      t.foldl (fun acc a => if a.1 = k then some a.2 else acc) acc =
        match lastVal t k with
        | some v => some v
        | none => acc := by
    intro t
    induction t with
    | nil => intro acc; rfl
    | cons b t ih =>
        intro acc
        show t.foldl _ (if b.1 = k then some b.2 else acc) = _
        rw [ih]
        have h2 : lastVal (b :: t) k =
            match lastVal t k with
            | some v => some v
            | none => if b.1 = k then some b.2 else none := ih _
        rw [h2]
        by_cases hb : b.1 = k <;> cases hlv : lastVal t k <;> simp [hb, hlv]
  exact aux l _

/-- Whether the index holds an entry at key `k`. -/
def hasKey (idx : Index) (k : String) : Bool :=
  idx.any (fun p => p.1 = k)

theorem upsert_def (idx : Index) (k : String) (v : Doc) :
    upsert idx k v =
      if hasKey idx k then
        idx.map (fun p => if p.1 = k then (k, v) else p)
      else idx ++ [(k, v)] := rfl

theorem hasKey_upsert_of (idx : Index) (k k' : String) (v : Doc)
    (h : hasKey idx k' = true) : hasKey (upsert idx k v) k' = true := by
  unfold hasKey at h ⊢
  rcases List.any_eq_true.mp h with ⟨p, hp, hpk⟩
  simp only [decide_eq_true_eq] at hpk
  rw [upsert_def]
  by_cases hk : hasKey idx k
  · rw [if_pos hk]
    refine List.any_eq_true.mpr
      ⟨if p.1 = k then (k, v) else p, List.mem_map.mpr ⟨p, hp, rfl⟩, ?_⟩
    by_cases hpk2 : p.1 = k
    · have hkk : k = k' := by rw [← hpk2, hpk]
      simp [hpk2, hkk]
    · have hk2 : ¬ k' = k := fun hc => hpk2 (hpk.trans hc)
      simp [hpk2, hpk, hk2]
  · rw [if_neg hk]
    exact List.any_eq_true.mpr ⟨p, List.mem_append_left _ hp, by simp [hpk]⟩

theorem hasKey_upsert_self (idx : Index) (k : String) (v : Doc) :
    hasKey (upsert idx k v) k = true := by
  rw [upsert_def]
  by_cases hk : hasKey idx k
  · rw [if_pos hk]
    rcases List.any_eq_true.mp hk with ⟨p, hp, hpk⟩
    simp only [decide_eq_true_eq] at hpk
    exact List.any_eq_true.mpr
      ⟨(k, v), List.mem_map.mpr ⟨p, hp, by simp [hpk]⟩, by simp⟩
  · rw [if_neg hk]
    exact List.any_eq_true.mpr ⟨(k, v), List.mem_append_right _ (by simp), by simp⟩

theorem hasKey_bulk_upsert_of_hasKey (l : List (String × Doc)) (k : String) :
    ∀ idx : Index, hasKey idx k = true →
      hasKey (bulk_upsert idx l) k = true := by
  induction l with
  | nil => intro idx h; exact h
  | cons a t ih =>
      intro idx h
      exact ih _ (hasKey_upsert_of idx a.1 k a.2 h)

theorem hasKey_bulk_upsert_self (l : List (String × Doc)) (a : String × Doc) :
    ∀ idx : Index, a ∈ l → hasKey (bulk_upsert idx l) a.1 = true := by
  induction l with
  | nil => intro idx ha; cases ha
  | cons b t ih =>
      intro idx ha
      rcases List.mem_cons.mp ha with h | h
      · subst h
        exact hasKey_bulk_upsert_of_hasKey t a.1 _ (hasKey_upsert_self idx a.1 a.2)
      · exact ih _ h

/-- When key `k` is present, an upsert is an in-place rewrite. -/
theorem upsert_of_hasKey (idx : Index) (k : String) (v : Doc)
    (h : hasKey idx k = true) :
    upsert idx k v = idx.map (fun p => if p.1 = k then (k, v) else p) := by
  rw [upsert_def, h]; rfl

/-- With every key of `l` present in `idx`, the bulk upsert is the pointwise
overwrite of each entry with the last value `l` writes at its key. -/
theorem bulk_upsert_subset_keys (l : List (String × Doc)) :
    ∀ idx : Index, (∀ a ∈ l, hasKey idx a.1 = true) →
    bulk_upsert idx l =
      idx.map (fun p =>
        match lastVal l p.1 with
        | some v => (p.1, v)
        | none => p) := by
  induction l with
  | nil =>
      intro idx _
      show idx = _
      conv_lhs => rw [← List.map_id idx]
      apply List.map_congr_left
      intro p _
      rfl
  | cons a t ih =>
      intro idx h
      show bulk_upsert (upsert idx a.1 a.2) t = _
      rw [ih (upsert idx a.1 a.2)
        (fun b hb => hasKey_upsert_of idx a.1 b.1 a.2 (h b (List.mem_cons_of_mem a hb)))]
      rw [upsert_of_hasKey idx a.1 a.2 (h a (List.mem_cons_self a t))]
      rw [List.map_map]
      apply List.map_congr_left
      intro p _
      simp only [Function.comp_apply]
      by_cases hp : p.1 = a.1
      · rw [if_pos hp, lastVal_cons, hp]
        cases hlv : lastVal t a.1 with
        | some v => simp [hlv]
        | none => simp [hlv]
      · rw [if_neg hp, lastVal_cons]
        have hk : ¬ a.1 = p.1 := fun hc => hp hc.symm
        cases hlv : lastVal t p.1 with
        | some v => simp [hlv]
        | none => simp [hlv, hk]

/-- Overwriting entries at key `a.1 ≠ k` does not change the entries at `k`. -/
theorem filter_map_overwrite_ne (a : String × Doc) (k : String)
    (hak : ¬ a.1 = k) :
    ∀ L : Index,
      (L.map (fun p => if p.1 = a.1 then (a.1, a.2) else p)).filter
        (fun p => p.1 = k) = L.filter (fun p => p.1 = k) := by
  intro L
  induction L with
  | nil => rfl
  | cons q Q ihq =>
      by_cases hq : q.1 = a.1
      · have hqk : ¬ q.1 = k := by rw [hq]; exact hak
        simp [List.filter_cons, hq, hqk, hak, ihq]
      · have h2 : ¬ k = a.1 := fun hc => hak hc.symm
        by_cases hqk : q.1 = k <;>
          simp [List.filter_cons, hq, hqk, h2, ihq]

/-- Entries at a key that `l` never writes survive a bulk upsert unchanged. -/
theorem bulk_upsert_filter_untouched (l : List (String × Doc)) (k : String) :
    ∀ idx : Index, lastVal l k = none →
    (bulk_upsert idx l).filter (fun p => p.1 = k) =
      idx.filter (fun p => p.1 = k) := by
  induction l with
  | nil => intro idx _; rfl
  | cons a t ih =>
      intro idx h
      rw [lastVal_cons] at h
      cases hlv : lastVal t k with
      | some v => rw [hlv] at h; cases h
      | none =>
          rw [hlv] at h
          have hak : ¬ a.1 = k := by
            intro hc
            rw [if_pos hc] at h
            cases h
          show (bulk_upsert (upsert idx a.1 a.2) t).filter _ = _
          rw [ih _ hlv]
          rw [upsert_def]
          by_cases hk2 : hasKey idx a.1
          · rw [if_pos hk2]
            exact filter_map_overwrite_ne a k hak idx
          · rw [if_neg hk2, List.filter_append]
            simp [hak]

/-- An entry of `upsert idx k v` carrying key `k` is `(k, v)`. -/
theorem mem_upsert_key (idx : Index) (k : String) (v : Doc) :
    ∀ p ∈ upsert idx k v, p.1 = k → p = (k, v) := by
  intro p hp hpk
  rw [upsert_def] at hp
  by_cases hk : hasKey idx k
  · rw [if_pos hk] at hp
    rcases List.mem_map.mp hp with ⟨q, hq, hqe⟩
    by_cases hq1 : q.1 = k
    · rw [if_pos hq1] at hqe
      exact hqe.symm
    · rw [if_neg hq1] at hqe
      exact absurd (hqe ▸ hpk) hq1
  · rw [if_neg hk] at hp
    rcases List.mem_append.mp hp with h | h
    · exact absurd (List.any_eq_true.mpr ⟨p, h, by simp [hpk]⟩) hk
    · exact List.mem_singleton.mp h

/-- Every entry of `bulk_upsert idx l` at a key that `l` writes already holds
the last value `l` writes there. -/
theorem bulk_upsert_wellWritten (l : List (String × Doc)) :
    ∀ idx : Index, ∀ p ∈ bulk_upsert idx l, ∀ v, lastVal l p.1 = some v →
      p = (p.1, v) := by
  induction l with
  | nil =>
      intro idx p _ v hv
      rw [lastVal_nil] at hv
      cases hv
  | cons a t ih =>
      intro idx p hp v hv
      rw [lastVal_cons] at hv
      cases hlv : lastVal t p.1 with
      | some v' =>
          rw [hlv] at hv
          cases hv
          exact ih _ p hp _ hlv
      | none =>
          rw [hlv] at hv
          by_cases hap : a.1 = p.1
          · rw [if_pos hap] at hv
            cases hv
            have hfilter := bulk_upsert_filter_untouched t p.1
              (upsert idx a.1 a.2) hlv
            have hpmem : p ∈ (bulk_upsert (upsert idx a.1 a.2) t).filter
                (fun q => q.1 = p.1) :=
              List.mem_filter.mpr ⟨hp, by simp⟩
            rw [hfilter] at hpmem
            have hpu : p ∈ upsert idx a.1 a.2 := (List.mem_filter.mp hpmem).1
            have hpe := mem_upsert_key idx a.1 a.2 p hpu hap.symm
            simp [hpe]
          · rw [if_neg hap] at hv
            cases hv

/-- Re-running the same keyed bulk upsert changes nothing. -/
theorem bulk_upsert_idem (l : List (String × Doc)) (idx : Index) :
    bulk_upsert (bulk_upsert idx l) l = bulk_upsert idx l := by
  rw [bulk_upsert_subset_keys l (bulk_upsert idx l)
    (fun a ha => hasKey_bulk_upsert_self l a idx ha)]
  conv_rhs => rw [← List.map_id (bulk_upsert idx l)]
  apply List.map_congr_left
  intro p hp
  cases hlv : lastVal l p.1 with
  | none => simp [hlv]
  | some v =>
      have hw := bulk_upsert_wellWritten l idx p hp v hlv
      simp [hlv, ← hw]

/-- The index written by one `sync_missing_messages` run, spelled out. -/
theorem sync_missing_messages_index (env : Env) (channel : List TgMessage)
    (channel_id : Int) (after_message_id : Nat) (sync_images has_minio : Bool)
    (idx : Index) :
    (sync_missing_messages env channel channel_id after_message_id sync_images
        has_minio idx).2.1 =
      (if (backfill_loop env channel channel_id after_message_id sync_images
            has_minio (channel.length + 1) 0 ⟨[], 0, 0, [], []⟩).processedInfos
          ≠ [] then
        bulk_upsert idx (build_actions
          (backfill_loop env channel channel_id after_message_id sync_images
            has_minio (channel.length + 1) 0 ⟨[], 0, 0, [], []⟩).processedInfos)
      else idx) := rfl

/-- C2: backfill (`sync_missing_messages`) run twice with the same cutoff on
the same channel state leaves the same index content: the second run submits
exactly the same documents under the same `"<channel_id>_<message_id>"` ids,
so its upserts overwrite the first run's writes and change nothing. -/
theorem sync_missing_messages_idempotent (env : Env)
    (channel : List TgMessage) (channel_id : Int) (after_message_id : Nat)
    (sync_images has_minio : Bool) (idx : Index) :
    (sync_missing_messages env channel channel_id after_message_id sync_images
        has_minio
        ((sync_missing_messages env channel channel_id after_message_id
          sync_images has_minio idx).2.1)).2.1 =
      (sync_missing_messages env channel channel_id after_message_id
        sync_images has_minio idx).2.1
    ∧ build_actions
        (sync_missing_messages env channel channel_id after_message_id
          sync_images has_minio
          ((sync_missing_messages env channel channel_id after_message_id
            sync_images has_minio idx).2.1)).2.2.processedInfos =
      build_actions
        (sync_missing_messages env channel channel_id after_message_id
          sync_images has_minio idx).2.2.processedInfos := by
  constructor
  · rw [sync_missing_messages_index, sync_missing_messages_index]
    by_cases hne : (backfill_loop env channel channel_id after_message_id
        sync_images has_minio (channel.length + 1) 0
        ⟨[], 0, 0, [], []⟩).processedInfos = []
    · simp [hne]
    · simp only [hne, ne_eq, not_false_iff, if_pos]
      exact bulk_upsert_idem _ _
  · rfl

/-! ## Per-page behaviour of the backfill loop -/

theorem backfill_page_attempted (env : Env) (cid : Int) (after : Nat)
    (si hm : Bool) :
    ∀ (page : List TgMessage) (st : BackfillState),
      (backfill_page env cid after si hm page st).1.attempted =
        st.attempted ++ page.takeWhile (fun m => after < m.id) := by
  intro page
  induction page with
  | nil => intro st; simp [backfill_page]
  | cons m rest ih =>
      intro st
      by_cases hcut : m.id ≤ after
      · have hlt : ¬ after < m.id := by omega
        simp [backfill_page, hcut, hlt]
      · have hlt : after < m.id := by omega
        simp only [backfill_page, if_neg hcut]
        cases hpm : process_message env m cid si hm with
        | some info => rw [ih]; simp [hlt]
        | none => rw [ih]; simp [hlt]

theorem backfill_page_processed (env : Env) (cid : Int) (after : Nat)
    (si hm : Bool) :
    ∀ (page : List TgMessage) (st : BackfillState),
      (backfill_page env cid after si hm page st).1.processedInfos =
        st.processedInfos ++
          (page.takeWhile (fun m => after < m.id)).filterMap
            (fun m => process_message env m cid si hm) := by
  intro page
  induction page with
  | nil => intro st; simp [backfill_page]
  | cons m rest ih =>
      intro st
      by_cases hcut : m.id ≤ after
      · have hlt : ¬ after < m.id := by omega
        simp [backfill_page, hcut, hlt]
      · have hlt : after < m.id := by omega
        simp only [backfill_page, if_neg hcut]
        cases hpm : process_message env m cid si hm with
        | some info => rw [ih]; simp [hlt, hpm]
        | none => rw [ih]; simp [hlt, hpm]

theorem backfill_page_images_failed (env : Env) (cid : Int) (after : Nat)
    (si hm : Bool) :
    ∀ (page : List TgMessage) (st : BackfillState),
      (backfill_page env cid after si hm page st).1.images_failed =
        st.images_failed := by
  intro page
  induction page with
  | nil => intro st; simp [backfill_page]
  | cons m rest ih =>
      intro st
      by_cases hcut : m.id ≤ after
      · simp [backfill_page, hcut]
      · simp only [backfill_page, if_neg hcut]
        cases hpm : process_message env m cid si hm with
        | some info => rw [ih]
        | none => rw [ih]

theorem backfill_page_fetched (env : Env) (cid : Int) (after : Nat)
    (si hm : Bool) :
    ∀ (page : List TgMessage) (st : BackfillState),
      (backfill_page env cid after si hm page st).1.fetched = st.fetched := by
  intro page
  induction page with
  | nil => intro st; simp [backfill_page]
  | cons m rest ih =>
      intro st
      by_cases hcut : m.id ≤ after
      · simp [backfill_page, hcut]
      · simp only [backfill_page, if_neg hcut]
        cases hpm : process_message env m cid si hm with
        | some info => rw [ih]
        | none => rw [ih]

theorem backfill_page_found (env : Env) (cid : Int) (after : Nat)
    (si hm : Bool) :
    ∀ (page : List TgMessage) (st : BackfillState),
      (backfill_page env cid after si hm page st).2 =
        page.any (fun m => m.id ≤ after) := by
  intro page
  induction page with
  | nil => intro st; simp [backfill_page]
  | cons m rest ih =>
      intro st
      by_cases hcut : m.id ≤ after
      · simp [backfill_page, hcut]
      · simp only [backfill_page, if_neg hcut]
        cases hpm : process_message env m cid si hm with
        | some info => rw [ih]; simp [hcut]
        | none => rw [ih]; simp [hcut]

/-! ## Whole-loop behaviour that needs no ordering assumptions -/

theorem backfill_loop_images_failed (env : Env) (channel : List TgMessage)
    (cid : Int) (after : Nat) (si hm : Bool) :
    ∀ (fuel offset : Nat) (st : BackfillState),
      (backfill_loop env channel cid after si hm fuel offset st).images_failed =
        st.images_failed := by
  intro fuel
  induction fuel with
  | zero => intro offset st; rfl
  | succ fuel ih =>
      intro offset st
      show (backfill_loop env channel cid after si hm (fuel + 1) offset st).images_failed = _
      rw [backfill_loop]
      cases hpage : get_messages channel 100 offset with
      | nil => rfl
      | cons p ps =>
          simp only []
          by_cases hfound : (backfill_page env cid after si hm (p :: ps)
              { st with fetched := st.fetched ++ (p :: ps) }).2
          · simp only [hfound, if_pos]
            rw [backfill_page_images_failed]
          · simp only [hfound, Bool.false_eq_true, if_neg, not_false_iff]
            rw [ih, backfill_page_images_failed]

theorem backfill_loop_processed_of_attempted (env : Env)
    (channel : List TgMessage) (cid : Int) (after : Nat) (si hm : Bool) :
    ∀ (fuel offset : Nat) (st : BackfillState),
      st.processedInfos = st.attempted.filterMap
        (fun m => process_message env m cid si hm) →
      (backfill_loop env channel cid after si hm fuel offset st).processedInfos =
        (backfill_loop env channel cid after si hm fuel offset st).attempted.filterMap
          (fun m => process_message env m cid si hm) := by
  intro fuel
  induction fuel with
  | zero => intro offset st h; exact h
  | succ fuel ih =>
      intro offset st h
      rw [backfill_loop]
      cases hpage : get_messages channel 100 offset with
      | nil => exact h
      | cons p ps =>
          simp only []
          by_cases hfound : (backfill_page env cid after si hm (p :: ps)
              { st with fetched := st.fetched ++ (p :: ps) }).2
          · simp only [hfound, if_pos]
            rw [backfill_page_processed, backfill_page_attempted]
            simp only [List.filterMap_append]
            rw [h]
          · simp only [hfound, Bool.false_eq_true, if_neg, not_false_iff]
            apply ih
            rw [backfill_page_processed, backfill_page_attempted]
            simp only [List.filterMap_append]
            rw [h]

/-- C5 (amended): per-message failures in backfill are skipped without retry
and processing continues — the processed records are exactly, in order, the
successful results of the attempted messages, each attempted once — but the
`images_failed` counter is NOT incremented: `process_message` converts every
per-message exception into an absent record (sync_service.py lines 142-144),
so the `except` branch that would increment `images_failed`
(smart_sync_service.py lines 146-150) never runs and the counter stays 0. -/
theorem sync_missing_messages_failures_skipped (env : Env)
    (channel : List TgMessage) (channel_id : Int) (after_message_id : Nat)
    (sync_images has_minio : Bool) (idx : Index) :
    (sync_missing_messages env channel channel_id after_message_id sync_images
        has_minio idx).2.2.processedInfos =
      (sync_missing_messages env channel channel_id after_message_id
        sync_images has_minio idx).2.2.attempted.filterMap
        (fun m => process_message env m channel_id sync_images has_minio)
    ∧ (sync_missing_messages env channel channel_id after_message_id
        sync_images has_minio idx).1.images_failed = 0
    ∧ (sync_missing_messages env channel channel_id after_message_id
        sync_images has_minio idx).1.messages_processed =
      (sync_missing_messages env channel channel_id after_message_id
        sync_images has_minio idx).2.2.processedInfos.length := by
  refine ⟨?_, ?_, rfl⟩
  · exact backfill_loop_processed_of_attempted env channel channel_id
      after_message_id sync_images has_minio (channel.length + 1) 0
      ⟨[], 0, 0, [], []⟩ rfl
  · show (backfill_loop env channel channel_id after_message_id sync_images
      has_minio (channel.length + 1) 0 ⟨[], 0, 0, [], []⟩).images_failed = 0
    rw [backfill_loop_images_failed]

/-- A world in which every media download raises. -/
def c5_env : Env :=
  { downloadMedia := fun _ => .error ()
    uploadImage := fun _ _ _ => .ok "http://minio/u"
    getEntity := fun _ => .error ()
    esBulk := fun acts => .ok (acts.length, 0)
    now := 0
    tgAccessible := true }

/-- A single photo-carrying message whose processing therefore fails. -/
def c5_msg : TgMessage :=
  { id := 5, sender := none, sender_id := none, date := none,
    text := some "x", media := some (.photo 1) }

/-- C5 counterexample: with image sync on, a message whose media download
raises is skipped — but `images_failed` is `0`, not `1` as the claim states:
the failure never reaches the counter's `except` branch. -/
theorem sync_missing_messages_failure_not_counted_cex :
    process_message c5_env c5_msg 7 true true = none
    ∧ (sync_missing_messages c5_env [c5_msg] 7 0 true true []).1.images_failed
        = 0
    ∧ (sync_missing_messages c5_env [c5_msg] 7 0 true true
        []).1.messages_processed = 0 := by
  refine ⟨rfl, rfl, rfl⟩

/-! ## Channels ordered newest-first

The platform contract returns pages newest-first; a channel's history is a
list strictly descending in message id, with positive ids (Telegram ids start
at 1 — an id of 0 would collide with Telethon's `offset_id=0` sentinel). -/

/-- Strictly descending by message id. -/
abbrev sortedDesc (l : List TgMessage) : Prop :=
  l.Pairwise (fun a b => b.id < a.id)

/-- All ids positive. -/
abbrev idsPos (l : List TgMessage) : Prop := ∀ m ∈ l, 0 < m.id

theorem sortedDesc_of_sublist {l l' : List TgMessage} (h : List.Sublist l' l)
    (hs : sortedDesc l) : sortedDesc l' :=
  List.Pairwise.sublist h hs

theorem sortedDesc_take_drop (l : List TgMessage) (hs : sortedDesc l)
    (k n : Nat) : sortedDesc ((l.drop k).take n) :=
  sortedDesc_of_sublist ((List.take_sublist _ _).trans (List.drop_sublist _ _)) hs

theorem getElem_congr_idx {A : Type} (l : List A) (i j : Nat) (h : i = j)
    (hi : i < l.length) (hj : j < l.length) : l[i] = l[j] := by
  subst h; rfl

/-- In a strictly descending list, the messages with id below the id of the
element at position `i` are exactly the elements after position `i`. -/
theorem sorted_filter_lt_eq_drop (l : List TgMessage) (hs : sortedDesc l) :
    ∀ (i : Nat) (hi : i < l.length),
      l.filter (fun m => m.id < l[i].id) = l.drop (i + 1) := by
  induction l with
  | nil => intro i hi; cases hi
  | cons h t ih =>
      have hht : ∀ b ∈ t, b.id < h.id := (List.pairwise_cons.mp hs).1
      have hst : sortedDesc t := (List.pairwise_cons.mp hs).2
      intro i hi
      cases i with
      | zero =>
          show (h :: t).filter (fun m => m.id < h.id) = t
          rw [List.filter_cons]
          simp only [Nat.lt_irrefl, decide_eq_true_eq, if_neg, not_false_iff]
          exact List.filter_eq_self.mpr (fun m hmem => by simp [hht m hmem])
      | succ i =>
          have hit : i < t.length := Nat.lt_of_succ_lt_succ hi
          show (h :: t).filter (fun m => m.id < t[i].id) = t.drop (i + 1)
          rw [List.filter_cons]
          have hlt : ¬ h.id < t[i].id := by
            have := hht _ (List.getElem_mem hit)
            omega
          simp only [hlt, decide_eq_true_eq, if_neg, not_false_iff]
          exact ih hst i hit

/-- A `takeWhile` beyond a prefix containing a failure is decided inside the
prefix. -/
theorem takeWhile_of_take_not_all {A : Type} (p : A → Bool) :
    ∀ (l : List A) (n : Nat), ¬ ((l.take n).all p = true) →
      l.takeWhile p = (l.take n).takeWhile p := by
  intro l
  induction l with
  | nil => intro n h; simp at h
  | cons a t ih =>
      intro n h
      cases n with
      | zero => simp at h
      | succ n =>
          rw [List.take_succ_cons] at h ⊢
          rw [List.all_cons] at h
          by_cases hp : p a
          · rw [hp] at h
            simp only [Bool.true_and] at h
            rw [List.takeWhile_cons_of_pos hp, List.takeWhile_cons_of_pos hp,
              ih n h]
          · have hp2 : p a = false := by
              cases hpa : p a
              · rfl
              · exact absurd hpa hp
            rw [List.takeWhile_cons_of_neg (by simp [hp2]),
              List.takeWhile_cons_of_neg (by simp [hp2])]

/-- A `takeWhile` walks through a prefix on which `p` always holds. -/
theorem takeWhile_of_take_all {A : Type} (p : A → Bool) :
    ∀ (l : List A) (n : Nat), (l.take n).all p = true →
      l.takeWhile p = l.take n ++ (l.drop n).takeWhile p := by
  intro l
  induction l with
  | nil => intro n _; simp
  | cons a t ih =>
      intro n h
      cases n with
      | zero => simp
      | succ n =>
          rw [List.take_succ_cons, List.all_cons] at h
          rcases Bool.and_eq_true_iff.mp h with ⟨hpa, hall⟩
          rw [List.takeWhile_cons_of_pos hpa, List.take_succ_cons,
            List.drop_succ_cons, List.cons_append, ih n hall]

/-- On a strictly descending list, filtering ids above a cutoff equals taking
while above the cutoff. -/
theorem sorted_filter_gt_eq_takeWhile (after : Nat) :
    ∀ l : List TgMessage, sortedDesc l →
      l.filter (fun m => after < m.id) = l.takeWhile (fun m => after < m.id) := by
  intro l
  induction l with
  | nil => intro _; rfl
  | cons h t ih =>
      intro hs
      have hht : ∀ b ∈ t, b.id < h.id := (List.pairwise_cons.mp hs).1
      have hst : sortedDesc t := (List.pairwise_cons.mp hs).2
      by_cases hp : after < h.id
      · rw [List.filter_cons, List.takeWhile_cons_of_pos (by simp [hp])]
        simp only [hp, decide_eq_true_eq, if_pos]
        rw [ih hst]
      · rw [List.filter_cons, List.takeWhile_cons_of_neg (by simp [hp])]
        have hp2 : decide (after < h.id) = false := by simp [hp]
        rw [hp2]
        simp only [Bool.false_eq_true, if_neg, not_false_iff]
        apply List.filter_eq_nil_iff.mpr
        intro m hmem
        have := hht m hmem
        simp only [decide_eq_true_eq]
        omega

/-- The remaining-messages view after fetching a page: for a strictly
descending, positive-id channel, refetching below the last id of the page
`(ch.drop k).take n` leaves exactly `ch.drop (k + page.length)`. -/
theorem Rem_after_page (ch : List TgMessage) (hs : sortedDesc ch)
    (hpos : idsPos ch) (k n : Nat) (hne : (ch.drop k).take n ≠ []) :
    Rem ch (((ch.drop k).take n).getLast hne).id =
      ch.drop (k + ((ch.drop k).take n).length) := by
  have hlenpos : 0 < ((ch.drop k).take n).length := List.length_pos.mpr hne
  have hlen_le : ((ch.drop k).take n).length ≤ (ch.drop k).length := by
    rw [List.length_take]
    have := List.length_take n (ch.drop k)
    omega
  have hdlen : (ch.drop k).length = ch.length - k := List.length_drop k ch
  have hkch : k + ((ch.drop k).take n).length ≤ ch.length := by omega
  have hidx : k + ((ch.drop k).take n).length - 1 < ch.length := by omega
  have hidx2 : k + (((ch.drop k).take n).length - 1) < ch.length := by omega
  have hlast : ((ch.drop k).take n).getLast hne =
      ch[k + ((ch.drop k).take n).length - 1] := by
    rw [List.getLast_eq_getElem, List.getElem_take, List.getElem_drop]
    exact getElem_congr_idx ch _ _ (by omega) hidx2 hidx
  rw [hlast]
  have hpos2 : 0 < (ch[k + ((ch.drop k).take n).length - 1]).id :=
    hpos _ (List.getElem_mem hidx)
  have hne0 : (ch[k + ((ch.drop k).take n).length - 1]).id ≠ 0 := by omega
  show Rem ch _ = _
  rw [Rem, if_neg hne0]
  rw [sorted_filter_lt_eq_drop ch hs (k + ((ch.drop k).take n).length - 1) hidx]
  congr 1
  omega

theorem getLast_congr_list {A : Type} (l l' : List A) (h : l = l')
    (hl : l ≠ []) (hl' : l' ≠ []) : l.getLast hl = l'.getLast hl' := by
  subst h; rfl

theorem takeWhile_eq_self_of_all {A : Type} (p : A → Bool) (l : List A)
    (h : l.all p = true) : l.takeWhile p = l := by
  have h2 := takeWhile_of_take_all p l l.length (by rwa [List.take_length])
  rw [List.take_length, List.drop_length, List.takeWhile_nil,
    List.append_nil] at h2
  exact h2

theorem take_length_take {A : Type} (l : List A) (n : Nat) :
    l.take ((l.take n).length) = l.take n := by
  rw [List.length_take]
  rcases Nat.le_total n l.length with h | h
  · rw [Nat.min_eq_left h]
  · rw [Nat.min_eq_right h, List.take_length, List.take_of_length_le h]

/-- The full characterization of the backfill fetch loop on a strictly
descending positive-id channel, relative to the not-yet-fetched suffix
`ch.drop k`: the loop attempts exactly the messages above the cutoff that
precede the first message at or below it, and the pages it fetches contain
exactly those messages above the cutoff. -/
theorem backfill_loop_char (env : Env) (ch : List TgMessage) (cid : Int)
    (after : Nat) (si hm : Bool) (hs : sortedDesc ch) (hpos : idsPos ch) :
    ∀ (fuel k offset : Nat) (st : BackfillState),
      Rem ch offset = ch.drop k →
      ch.length - k < fuel →
      (backfill_loop env ch cid after si hm fuel offset st).attempted =
        st.attempted ++ (ch.drop k).takeWhile (fun m => after < m.id)
      ∧ ∃ F, (backfill_loop env ch cid after si hm fuel offset st).fetched =
            st.fetched ++ F
          ∧ F.filter (fun m => after < m.id) =
            (ch.drop k).takeWhile (fun m => after < m.id) := by
  intro fuel
  induction fuel with
  | zero => intro k offset st _ hf; omega
  | succ fuel ih =>
      intro k offset st hrem hf
      have hget : get_messages ch 100 offset = (ch.drop k).take 100 := by
        rw [get_messages, hrem]
      rw [backfill_loop]
      cases hpage : get_messages ch 100 offset with
      | nil =>
          have hdk : ch.drop k = [] := by
            rw [hget] at hpage
            rcases List.take_eq_nil_iff.mp hpage with h | h
            · omega
            · exact h
          rw [hdk]
          exact ⟨by simp, [], by simp, by simp⟩
      | cons p ps =>
          dsimp only
          have hpage2 : (ch.drop k).take 100 = p :: ps := by
            rw [← hget, hpage]
          have hpagene : (p :: ps) ≠ [] := by simp
          have hsorted_page : sortedDesc (p :: ps) := by
            rw [← hpage2]; exact sortedDesc_take_drop ch hs k 100
          have hlen1 : 1 ≤ (p :: ps).length := by simp
          have hlen_le : (p :: ps).length ≤ ch.length - k := by
            rw [← hpage2, List.length_take, List.length_drop]
            omega
          have hattempted := backfill_page_attempted env cid after si hm
            (p :: ps) { st with fetched := st.fetched ++ (p :: ps) }
          have hfetched := backfill_page_fetched env cid after si hm
            (p :: ps) { st with fetched := st.fetched ++ (p :: ps) }
          have hfound := backfill_page_found env cid after si hm
            (p :: ps) { st with fetched := st.fetched ++ (p :: ps) }
          by_cases hany : (p :: ps).any (fun m => m.id ≤ after) = true
          · -- the cutoff was found inside this page: the loop stops here
            rw [hfound, hany]
            simp only [if_pos]
            have hnotall : ¬ (((ch.drop k).take 100).all
                (fun m => after < m.id) = true) := by
              rw [hpage2]
              intro hall
              rcases List.any_eq_true.mp hany with ⟨m, hmem, hle⟩
              have := List.all_eq_true.mp hall m hmem
              simp only [decide_eq_true_eq] at this hle
              omega
            have htw : (ch.drop k).takeWhile (fun m => after < m.id) =
                (p :: ps).takeWhile (fun m => after < m.id) := by
              rw [takeWhile_of_take_not_all _ (ch.drop k) 100 hnotall, hpage2]
            constructor
            · rw [hattempted, htw]
            · refine ⟨p :: ps, by rw [hfetched], ?_⟩
              rw [sorted_filter_gt_eq_takeWhile after (p :: ps) hsorted_page,
                htw]
          · -- no cutoff in the page: the loop continues below the page
            rw [hfound]
            have hany2 : (p :: ps).any (fun m => m.id ≤ after) = false := by
              cases hx : (p :: ps).any (fun m => m.id ≤ after)
              · rfl
              · exact absurd hx hany
            rw [hany2]
            simp only [Bool.false_eq_true, if_neg, not_false_iff]
            have hall : (p :: ps).all (fun m => after < m.id) = true := by
              rw [List.all_eq_true]
              intro m hmem
              by_contra hc
              apply hany
              refine List.any_eq_true.mpr ⟨m, hmem, ?_⟩
              simp only [decide_eq_true_eq] at hc ⊢
              omega
            -- the new offset re-fetches exactly the suffix after this page
            have hrem2 : Rem ch (((p :: ps).getLast hpagene).id) =
                ch.drop (k + (p :: ps).length) := by
              have hne100 : (ch.drop k).take 100 ≠ [] := by
                rw [hpage2]; exact hpagene
              have := Rem_after_page ch hs hpos k 100 hne100
              rw [getLast_congr_list ((ch.drop k).take 100) (p :: ps) hpage2
                hne100 hpagene] at this
              rw [this, hpage2]
            have hfuel2 : ch.length - (k + (p :: ps).length) < fuel := by
              omega
            have hih := ih (k + (p :: ps).length)
              (((p :: ps).getLast hpagene).id)
              (backfill_page env cid after si hm (p :: ps)
                { st with fetched := st.fetched ++ (p :: ps) }).1
              hrem2 hfuel2
            -- split (ch.drop k).takeWhile at the page boundary
            have hsplit : (ch.drop k).takeWhile (fun m => after < m.id) =
                (p :: ps) ++
                  (ch.drop (k + (p :: ps).length)).takeWhile
                    (fun m => after < m.id) := by
              have htk : (ch.drop k).take ((p :: ps).length) = p :: ps := by
                have := take_length_take (ch.drop k) 100
                rw [hpage2] at this
                exact this
              have hall2 : ((ch.drop k).take ((p :: ps).length)).all
                  (fun m => after < m.id) = true := by
                rw [htk]; exact hall
              rw [takeWhile_of_take_all _ (ch.drop k) ((p :: ps).length) hall2,
                htk, List.drop_drop]
            constructor
            · rw [hih.1, hattempted, hsplit]
              rw [takeWhile_eq_self_of_all _ _ hall]
              simp [List.append_assoc]
            · rcases hih.2 with ⟨F, hF1, hF2⟩
              refine ⟨(p :: ps) ++ F, ?_, ?_⟩
              · rw [hF1, hfetched]
                simp [List.append_assoc]
              · rw [List.filter_append, hF2, hsplit]
                congr 1
                exact List.filter_eq_self.mpr
                  (fun m hmem => List.all_eq_true.mp hall m hmem)

/-- C3: for every strictly descending positive-id channel and every cutoff,
backfill fetches newest-first pages, stops at the first fetched message at or
below the cutoff or at the first empty page, and the messages it hands to
per-message processing are exactly the fetched messages whose id is strictly
greater than the cutoff — equivalently, the channel's messages above the
cutoff that precede the first message at or below it. -/
theorem sync_missing_messages_processes_above_cutoff (env : Env)
    (channel : List TgMessage) (channel_id : Int) (after_message_id : Nat)
    (sync_images has_minio : Bool) (idx : Index)
    (hs : sortedDesc channel) (hpos : idsPos channel) :
    (sync_missing_messages env channel channel_id after_message_id sync_images
        has_minio idx).2.2.attempted =
      (sync_missing_messages env channel channel_id after_message_id
        sync_images has_minio idx).2.2.fetched.filter
        (fun m => after_message_id < m.id)
    ∧ (sync_missing_messages env channel channel_id after_message_id
        sync_images has_minio idx).2.2.attempted =
      channel.takeWhile (fun m => after_message_id < m.id) := by
  have hrem0 : Rem channel 0 = channel.drop 0 := by
    rw [Rem, if_pos rfl, List.drop_zero]
  have hchar := backfill_loop_char env channel channel_id after_message_id
    sync_images has_minio hs hpos (channel.length + 1) 0 0 ⟨[], 0, 0, [], []⟩
    hrem0 (by omega)
  rcases hchar with ⟨hatt, F, hF1, hF2⟩
  rw [List.drop_zero] at hatt hF2
  simp only [List.nil_append] at hatt hF1
  constructor
  · show (backfill_loop env channel channel_id after_message_id sync_images
        has_minio (channel.length + 1) 0 ⟨[], 0, 0, [], []⟩).attempted =
      (backfill_loop env channel channel_id after_message_id sync_images
        has_minio (channel.length + 1) 0 ⟨[], 0, 0, [], []⟩).fetched.filter
        (fun m => after_message_id < m.id)
    rw [hatt, hF1, hF2]
  · show (backfill_loop env channel channel_id after_message_id sync_images
        has_minio (channel.length + 1) 0 ⟨[], 0, 0, [], []⟩).attempted =
      channel.takeWhile (fun m => after_message_id < m.id)
    exact hatt

/-- A benign world for concrete evaluations: downloads return no bytes,
uploads succeed, entity lookups fail, bulk inserts succeed. -/
def env0 : Env :=
  { downloadMedia := fun _ => .ok none
    uploadImage := fun _ _ _ => .ok "http://minio/u"
    getEntity := fun _ => .error ()
    esBulk := fun acts => .ok (acts.length, 0)
    now := 0
    tgAccessible := true }

/-- A plain text message with the given id. -/
def mkMsg (i : Nat) : TgMessage :=
  { id := i, sender := none, sender_id := none, date := none,
    text := some "t", media := none }

/-- A three-message channel, newest first. -/
def c3_channel : List TgMessage := [mkMsg 3, mkMsg 2, mkMsg 1]

/-- Witness for C3 at a concrete channel and cutoff. -/
theorem sync_missing_messages_processes_above_cutoff_witness :
    (sync_missing_messages env0 c3_channel 1 1 false false []).2.2.attempted =
      (sync_missing_messages env0 c3_channel 1 1 false false
        []).2.2.fetched.filter (fun m => 1 < m.id)
    ∧ (sync_missing_messages env0 c3_channel 1 1 false false
        []).2.2.attempted = c3_channel.takeWhile (fun m => 1 < m.id) :=
  sync_missing_messages_processes_above_cutoff env0 c3_channel 1 1 false false
    [] (by decide) (by decide)

/-! ## The explicit-window sync task (`sync_tasks.py`) -/

/-- One progress record, as `SyncTask.update_progress` builds its `meta`
dictionary. -/
structure Progress where
  current : Nat
  total : Nat
  status : String
  percentage : Nat
  deriving DecidableEq, Repr

/-- Embeds `SyncTask.update_progress` (sync_tasks.py lines 22-44):
`percentage = int((current / total) * 100) if total > 0 else 0`, modeled as
exact floor division. -/
def SyncTask.update_progress (current total : Nat) (status : String) :
    Progress :=
  ⟨current, total, status, if 0 < total then current * 100 / total else 0⟩

/-- Embeds `SmartSyncTask.update_progress` (smart_sync_tasks.py lines 21-43): the
same formula. -/
def SmartSyncTask.update_progress (current total : Nat) (status : String) :
    Progress :=
  ⟨current, total, status, if 0 < total then current * 100 / total else 0⟩

/-- The mutable state of `sync_channel_messages_task`'s fetch loop, plus the
trace of progress updates it has emitted. -/
structure BatchState where
  processed : List MessageInfo
  images_downloaded : Nat
  images_failed : Nat
  trace : List Progress
  deriving DecidableEq, Repr

/-- The inner `for tg_msg in telegram_messages` loop of
`sync_channel_messages_task` (sync_tasks.py lines 141-176): break once `size`
messages are processed; otherwise call `process_message`, append a produced
record, count its images, and emit a progress update with the new count.
A `None` result is skipped but still followed by the progress update (the
update sits inside the `try`, after the `if message_info` block). -/
def batch_page (env : Env) (cid : Int) (size : Nat) (si hm : Bool) :
    List TgMessage → BatchState → BatchState
  | [], st => st
  | m :: rest, st =>
      if size ≤ st.processed.length then st
      else
        let st1 :=
          match process_message env m cid si hm with
          | some info =>
              { st with
                processed := st.processed ++ [info]
                images_downloaded := st.images_downloaded +
                  (if si && info.image_urls != [] then
                    info.image_urls.length
                  else 0) }
          | none => st
        let cur := st1.processed.length
        let st2 := { st1 with trace := st1.trace ++
          [SyncTask.update_progress cur size
            s!"Processed {cur}/{size} messages"] }
        batch_page env cid size si hm rest st2

/-- The outer `while len(processed_messages) < size` loop of
`sync_channel_messages_task` (sync_tasks.py lines 127-187): fetch
`min(batch_size, size - len(processed))` messages at the current offset,
stop on an empty page, process the page, advance the offset to the last
fetched id, and stop when a page came back shorter than requested.  `fuel`
bounds iterations; `channel.length + 1` suffices for descending channels. -/
def batch_loop (env : Env) (channel : List TgMessage) (cid : Int)
    (size batch_size : Nat) (si hm : Bool) :
    Nat → Nat → BatchState → BatchState
  | 0, _, st => st
  | fuel + 1, offset, st =>
      if st.processed.length < size then
        let to_fetch := min batch_size (size - st.processed.length)
        match get_messages channel to_fetch offset with
        | [] => st
        | p :: ps =>
            let page := p :: ps
            let st1 := batch_page env cid size si hm page st
            if page.length < to_fetch then st1
            else
              batch_loop env channel cid size batch_size si hm fuel
                ((page.getLast (by simp [page])).id) st1
      else st

/-- The prelude of `sync_channel_messages_task` (sync_tasks.py lines
106-124): the initial progress update, and — for a positive `offset` — the
cursor walk `get_messages(peer, limit=offset)` whose last id becomes the
starting offset, followed by the "Skipped" progress update. -/
def task_start (channel : List TgMessage) (channel_id : Int)
    (size offset : Nat) : Nat × BatchState :=
  let st0 : BatchState :=
    ⟨[], 0, 0, [SyncTask.update_progress 0 size
      s!"Starting sync for channel {channel_id}"]⟩
  if 0 < offset then
    let skip_messages := get_messages channel offset 0
    let current_offset :=
      match skip_messages.getLast? with
      | some m => m.id
      | none => 0
    (current_offset, { st0 with trace := st0.trace ++
      [SyncTask.update_progress 0 size s!"Skipped {offset} messages"] })
  else (0, st0)

/-- The task's result dictionary (sync_tasks.py lines 222-236). -/
structure TaskOutcome where
  channel_id : Int
  sync_chat : Bool
  sync_images : Bool
  messages_processed : Nat
  chat_messages_stored : Nat
  images_downloaded : Nat
  images_failed : Nat
  elasticsearch_success : Nat
  elasticsearch_failed : Nat
  has_more : Bool
  deriving DecidableEq, Repr

/-- Embeds `sync_channel_messages_task` (sync_tasks.py lines 50-246): validate the
flags (raising `ValueError` when both are off — before any progress update),
optionally skip `offset` messages by walking the id cursor, run the batch
loop, bulk-upsert the processed records when `sync_chat` is set, and report
`has_more = (len(processed_messages) == size)`.  Returns the outcome, the
index after the run and the emitted progress trace. -/
def sync_channel_messages_task (env : Env) (channel : List TgMessage)
    (channel_id : Int) (sync_chat sync_images : Bool)
    (size offset batch_size : Nat) (idx : Index) :
    Except String (TaskOutcome × Index × List Progress) :=
  if !sync_chat && !sync_images then
    .error "At least one of sync_chat or sync_images must be True"
  else
    let has_minio := sync_images
    let start := task_start channel channel_id size offset
    let st := batch_loop env channel channel_id size batch_size sync_images
      has_minio (channel.length + 1) start.1 start.2
    let actions := build_actions st.processed
    let esPair :=
      if sync_chat && st.processed != [] then
        execute_elasticsearch_bulk_insert env actions
      else (0, 0)
    let idx1 :=
      if sync_chat && st.processed != [] then bulk_upsert idx actions else idx
    let n := st.processed.length
    let final := { st with trace := st.trace ++
      [SyncTask.update_progress n size "Sync completed successfully"] }
    .ok ({ channel_id := channel_id
           sync_chat := sync_chat
           sync_images := sync_images
           messages_processed := n
           chat_messages_stored := if sync_chat then esPair.1 else 0
           images_downloaded := if sync_images then st.images_downloaded else 0
           images_failed := if sync_images then st.images_failed else 0
           elasticsearch_success := esPair.1
           elasticsearch_failed := esPair.2
           has_more := n == size }, idx1, final.trace)

/-- The progress updates emitted by `smart_sync_task`'s fan-out
(smart_sync_tasks.py lines 106-146): one initial update at `(0, n)`, then one
update per completed channel at `(completed, n)` for `completed = 1..n`. -/
def smart_sync_progress_trace (n : Nat) : List Progress :=
  SmartSyncTask.update_progress 0 n s!"Processing {n} channels" ::
    (List.range n).map (fun i =>
      let c := i + 1
      SmartSyncTask.update_progress c n s!"Completed {c}/{n} channels")

/-- With image sync off, `process_message` always produces a record: the only
failure path is the media download/upload block, which is guarded by
`sync_images`. -/
theorem process_message_isSome_no_images (env : Env) (m : TgMessage)
    (cid : Int) (hm : Bool) :
    (process_message env m cid false hm).isSome = true := by
  unfold process_message
  cases m.media <;> simp

/-- When every message processes successfully and the whole page fits under
`size`, the inner loop appends the full page. -/
theorem batch_page_count (env : Env) (cid : Int) (size : Nat) (si hm : Bool)
    (hsucc : ∀ m, (process_message env m cid si hm).isSome = true) :
    ∀ (page : List TgMessage) (st : BatchState),
      st.processed.length + page.length ≤ size →
      (batch_page env cid size si hm page st).processed.length =
        st.processed.length + page.length := by
  intro page
  induction page with
  | nil => intro st _; simp [batch_page]
  | cons m rest ih =>
      intro st hle
      rw [batch_page]
      have hlt : ¬ size ≤ st.processed.length := by
        simp only [List.length_cons] at hle
        omega
      rw [if_neg hlt]
      cases hpm : process_message env m cid si hm with
      | none =>
          have := hsucc m
          rw [hpm] at this
          cases this
      | some info =>
          dsimp only
          rw [ih]
          · simp only [List.length_append, List.length_cons,
              List.length_nil]
            omega
          · simp only [List.length_append, List.length_cons,
              List.length_nil] at hle ⊢
            omega

/-- The batch loop's processed count on a strictly descending positive-id
channel with all-successful processing: it adds
`min (size - already) (remaining)` records. -/
theorem batch_loop_count (env : Env) (ch : List TgMessage) (cid : Int)
    (size batch_size : Nat) (si hm : Bool) (hs : sortedDesc ch)
    (hpos : idsPos ch)
    (hsucc : ∀ m, (process_message env m cid si hm).isSome = true)
    (hbatch : 0 < batch_size) :
    ∀ (fuel k offset : Nat) (st : BatchState),
      Rem ch offset = ch.drop k →
      ch.length - k < fuel →
      st.processed.length ≤ size →
      (batch_loop env ch cid size batch_size si hm fuel offset st).processed.length
        = st.processed.length +
          min (size - st.processed.length) (ch.length - k) := by
  intro fuel
  induction fuel with
  | zero => intro k offset st _ hf _; omega
  | succ fuel ih =>
      intro k offset st hrem hf hstle
      rw [batch_loop]
      by_cases hcond : st.processed.length < size
      · rw [if_pos hcond]
        dsimp only
        have hget : get_messages ch (min batch_size
            (size - st.processed.length)) offset =
            (ch.drop k).take (min batch_size (size - st.processed.length)) := by
          rw [get_messages, hrem]
        cases hpage : get_messages ch (min batch_size
            (size - st.processed.length)) offset with
        | nil =>
            have hdk : ch.drop k = [] := by
              rw [hget] at hpage
              rcases List.take_eq_nil_iff.mp hpage with h | h
              · omega
              · exact h
            have hck : ch.length - k = 0 := by
              have := List.length_drop k ch
              rw [hdk] at this
              simp at this
              omega
            dsimp only
            omega
        | cons p ps =>
            dsimp only
            have hpage2 : (ch.drop k).take (min batch_size
                (size - st.processed.length)) = p :: ps := by
              rw [← hget, hpage]
            have hpagene : (p :: ps) ≠ [] := by simp
            have hplen : (p :: ps).length =
                min (min batch_size (size - st.processed.length))
                  (ch.length - k) := by
              rw [← hpage2, List.length_take, List.length_drop]
            have hlen1 : 1 ≤ (p :: ps).length := by simp
            have hfit : st.processed.length + (p :: ps).length ≤ size := by
              omega
            have hcnt := batch_page_count env cid size si hm hsucc (p :: ps)
              st hfit
            by_cases hshort : (p :: ps).length <
                min batch_size (size - st.processed.length)
            · rw [if_pos hshort]
              omega
            · rw [if_neg hshort]
              have hrem2 : Rem ch (((p :: ps).getLast hpagene).id) =
                  ch.drop (k + (p :: ps).length) := by
                have hne2 : (ch.drop k).take (min batch_size
                    (size - st.processed.length)) ≠ [] := by
                  rw [hpage2]; exact hpagene
                have := Rem_after_page ch hs hpos k (min batch_size
                  (size - st.processed.length)) hne2
                rw [getLast_congr_list _ (p :: ps) hpage2 hne2 hpagene]
                  at this
                rw [this, hpage2]
              have hih := ih (k + (p :: ps).length)
                (((p :: ps).getLast hpagene).id)
                (batch_page env cid size si hm (p :: ps) st)
                hrem2 (by omega) (by omega)
              rw [hih, hcnt]
              omega
      · rw [if_neg hcond]
        omega

/-- C4 (amended): on a strictly descending positive-id channel holding at
least 100 messages, the explicit-window sync with `size=100, offset=0,
batch_size=50` (chat sync on, image sync off) processes exactly 100 messages
and reports `has_more = true`.  The source computes
`has_more = (len(processed_messages) == size)`, so `has_more` is `true`
whenever 100 messages were processed — a 101st message is NOT required. -/
theorem sync_channel_messages_task_window (env : Env)
    (channel : List TgMessage) (channel_id : Int) (idx : Index)
    (hs : sortedDesc channel) (hpos : idsPos channel)
    (hlen : 100 ≤ channel.length) :
    (sync_channel_messages_task env channel channel_id true false 100 0 50
        idx).map (fun o => (o.1.messages_processed, o.1.has_more)) =
      .ok (100, true) := by
  have hsucc : ∀ m, (process_message env m channel_id false false).isSome
      = true := fun m => process_message_isSome_no_images env m channel_id false
  have hrem0 : Rem channel 0 = channel.drop 0 := by
    rw [Rem, if_pos rfl, List.drop_zero]
  have hcount := batch_loop_count env channel channel_id 100 50 false false
    hs hpos hsucc (by omega) (channel.length + 1) 0 0
    ⟨[], 0, 0, [SyncTask.update_progress 0 100
      s!"Starting sync for channel {channel_id}"]⟩
    hrem0 (by omega) (by simp)
  have hn : (batch_loop env channel channel_id 100 50 false false
      (channel.length + 1) 0
      ⟨[], 0, 0, [SyncTask.update_progress 0 100
        s!"Starting sync for channel {channel_id}"]⟩).processed.length
      = 100 := by
    rw [hcount]
    dsimp only [List.length_nil]
    omega
  simp only [sync_channel_messages_task, task_start, Bool.not_true,
    Bool.not_false, Bool.false_and, Bool.false_eq_true, if_neg,
    not_false_iff, Nat.lt_irrefl, Except.map]
  simp only [hn]
  rfl

/-- A channel holding exactly 100 messages, ids 100..1, newest first. -/
def c4_channel : List TgMessage :=
  (List.range 100).map (fun i => mkMsg (100 - i))

/-- Witness for the amended C4 at a concrete 100-message channel. -/
theorem sync_channel_messages_task_window_witness :
    (sync_channel_messages_task env0 c4_channel 2 true false 100 0 50
        []).map (fun o => (o.1.messages_processed, o.1.has_more)) =
      .ok (100, true) :=
  sync_channel_messages_task_window env0 c4_channel 2 [] (by decide)
    (by decide) (by decide)

set_option maxRecDepth 20000 in
/-- C4 counterexample: on a channel holding exactly 100 messages the task
still reports `has_more = true`, though no 101st message exists — refuting
"`has_more` is true if and only if a 101st message exists". -/
theorem sync_channel_messages_task_has_more_cex :
    (sync_channel_messages_task env0 c4_channel 1 true false 100 0 50
        []).map (fun o => o.1.has_more) = .ok true
    ∧ c4_channel.length = 100 :=
  ⟨rfl, rfl⟩

/-! ## Listener resume on startup (`main.py`, `listener_service.py`) -/

/-- The persisted listener status dictionary; a field missing from the stored
JSON is `none`. -/
structure StatusDict where
  is_running : Option Bool
  download_images : Option Bool
  monitored_channels : Option Nat
  channels : Option (List Int)
  started_at : Option String
  stopped_at : Option String
  task_id : Option String
  deriving DecidableEq, Repr

/-- Embeds `get_listener_status` (listener_service.py lines 28-51): the stored
dictionary when one exists, else the default dictionary
`is_running: False, download_images: True, monitored_channels: 0,
channels: [], started_at: None`. -/
def get_listener_status (store : Option StatusDict) : StatusDict :=
  match store with
  | some s => s
  | none =>
      { is_running := some false
        download_images := some true
        monitored_channels := some 0
        channels := some []
        started_at := none
        stopped_at := none
        task_id := none }

/-- Embeds `resume_listener_if_needed` (main.py lines 38-83): read the persisted
status; if `status.get("is_running", True)` — note the default is `True`, so
a stored status MISSING the key also triggers a resume — dispatch exactly one
`start_listener_task.delay(download_images=...)` with
`status.get("download_images", True)`, and write the status back with the new
task id and start timestamp; otherwise do nothing.  The first component lists
the dispatched relaunches with their `download_images` argument; the second
is the store afterwards. -/
def resume_listener_if_needed (store : Option StatusDict)
    (new_task_id : String) (now : String) : List Bool × Option StatusDict :=
  let status := get_listener_status store
  if status.is_running.getD true then
    let download_images := status.download_images.getD true
    let status1 := { status with task_id := some new_task_id
                                 started_at := some now }
    ([download_images], some status1)
  else ([], store)

/-- C6 (amended): on startup the listener is relaunched iff the persisted
status does not show `is_running=false` — a persisted status with the key
missing defaults to relaunch, and no persisted status at all reads as the
default `is_running=false` and does not relaunch.  When the status shows
`is_running=true`, exactly one relaunch is issued, with the stored
`download_images` value (`true` when that key is missing), and the status is
rewritten with the new task handle and start timestamp. -/
theorem resume_listener_characterization (store : Option StatusDict)
    (tid now : String) :
    (resume_listener_if_needed store tid now).1 =
      (if (get_listener_status store).is_running.getD true then
        [(get_listener_status store).download_images.getD true]
      else [])
    ∧ ((get_listener_status store).is_running = some true →
        (resume_listener_if_needed store tid now).1 =
          [(get_listener_status store).download_images.getD true]
        ∧ (resume_listener_if_needed store tid now).2 =
          some { get_listener_status store with task_id := some tid
                                                started_at := some now })
    ∧ ((get_listener_status store).is_running = some false →
        (resume_listener_if_needed store tid now).1 = []
        ∧ (resume_listener_if_needed store tid now).2 = store)
    ∧ (resume_listener_if_needed store tid now).1.length ≤ 1 := by
  cases hir : (get_listener_status store).is_running with
  | none => simp [resume_listener_if_needed, hir]
  | some b => cases b <;> simp [resume_listener_if_needed, hir]

/-- A persisted status object with no keys at all (stored JSON `\x7b\x7d`). -/
def c6_empty_status : StatusDict :=
  ⟨none, none, none, none, none, none, none⟩

/-- C6 counterexample: a persisted status that does NOT show
`is_running=true` (the key is absent) still triggers a relaunch, because
`status.get("is_running", True)` defaults to `True` — refuting "relaunched if
and only if the persisted status shows `is_running=true`". -/
theorem resume_listener_iff_cex :
    (resume_listener_if_needed (some c6_empty_status) "tid" "now").1.length = 1
    ∧ (get_listener_status (some c6_empty_status)).is_running ≠ some true := by
  exact ⟨rfl, by decide⟩

/-! ## Enhanced per-message processing (`listener_service.py`) -/

/-- The sender-name resolution of `process_single_message_enhanced`
(listener_service.py lines 366-414): direct sender entity fields; else, for a
truthy `sender_id` (Python `elif message.sender_id:` — both `None` and `0`
are falsy), a `get_entity` lookup whose failure falls back to
`f"User_{sender_id}"`; else `"Unknown"`. -/
def resolve_sender_name_enhanced (env : Env) (msg : TgMessage) : String :=
  match msg.sender with
  | some s => sender_display_name s
  | none =>
      match msg.sender_id with
      | some sid =>
          if sid ≠ 0 then
            match env.getEntity sid with
            | .ok s => sender_display_name s
            | .error _ => if sid ≠ 0 then s!"User_{sid}" else "Unknown"
          else "Unknown"
      | none => "Unknown"

/-- Embeds `process_single_message_enhanced` (listener_service.py lines 342-505):
enhanced sender resolution, then media handling in which download errors are
logged and swallowed (lines 463-466, no re-raise) and media present without
download yields an inline marker (`elif message.media:`, line 468).  In the
pure model nothing escapes the outer handler, so a record is always
produced. -/
def process_single_message_enhanced (env : Env) (msg : TgMessage)
    (channel_id : Int) (download_images : Bool) (has_minio : Bool) :
    Option MessageInfo :=
  let sender_name := resolve_sender_name_enhanced env msg
  let media_out : List String × List String :=
    match msg.media with
    | some m =>
        if download_images && has_minio then
          if m.isImageLike then
            match download_and_upload env m channel_id msg.id with
            | .ok out => (out.1, out.2.1)
            | .error _ => ([], [])
          else ([], [])
        else ([], inline_marker m)
    | none => ([], [])
  some { channel_id := channel_id
         message_id := msg.id
         sender_name := sender_name
         time := msg.date
         text := msg.text.getD ""
         images := media_out.1
         image_urls := media_out.2
         images_data := []
         indexed_at := env.now }

/-- C7 (amended): a message with no sender entity but a present NONZERO
`sender_id` that the `get_entity` fallback cannot resolve gets the
synthesized name `"User_<sender_id>"`, and sender-resolution failure is never
fatal — a record is still produced.  (`sender_id = 0` is present but falsy in
Python, so it takes the `"Unknown"` branch instead — see the
counterexample.) -/
theorem enhanced_sender_fallback (env : Env) (msg : TgMessage)
    (channel_id : Int) (download_images has_minio : Bool) (sid : Int)
    (hsender : msg.sender = none) (hsid : msg.sender_id = some sid)
    (hnz : sid ≠ 0) (hent : env.getEntity sid = .error ()) :
    (process_single_message_enhanced env msg channel_id download_images
        has_minio).isSome = true
    ∧ (process_single_message_enhanced env msg channel_id download_images
        has_minio).map (fun r => r.sender_name) = some s!"User_{sid}" := by
  constructor
  · simp [process_single_message_enhanced]
  · simp [process_single_message_enhanced, resolve_sender_name_enhanced,
      hsender, hsid, hnz, hent]

/-- A message with an absent sender and an unresolvable nonzero sender id. -/
def c7_msg : TgMessage :=
  { id := 9, sender := none, sender_id := some 42, date := none,
    text := some "hi", media := none }

/-- Witness for the amended C7: `env0.getEntity` always fails, so the
synthesized name appears. -/
theorem enhanced_sender_fallback_witness :
    (process_single_message_enhanced env0 c7_msg 3 true false).isSome = true
    ∧ (process_single_message_enhanced env0 c7_msg 3 true false).map
        (fun r => r.sender_name) = some "User_42" :=
  enhanced_sender_fallback env0 c7_msg 3 true false 42 rfl rfl
    (by decide) rfl

/-- The same message with `sender_id = 0`: present, but falsy in Python. -/
def c7_msg0 : TgMessage :=
  { id := 9, sender := none, sender_id := some 0, date := none,
    text := some "hi", media := none }

/-- C7 counterexample: with sender absent and `sender_id` present but equal
to `0`, the `elif message.sender_id:` truthiness gate skips the lookup-by-id
fallback entirely and the record carries `"Unknown"`, not `"User_0"` —
refuting the claim for every message whose `sender_id` is present. -/
theorem enhanced_sender_fallback_cex :
    (process_single_message_enhanced env0 c7_msg0 3 true false).map
        (fun r => r.sender_name) = some "Unknown"
    ∧ (some "Unknown" : Option String) ≠ some "User_0" := by
  exact ⟨rfl, by decide⟩

/-! ## Progress invariants (C8) -/

/-- The spec's percentage formula: `floor(current/total*100)` for a positive
total, `0` otherwise. -/
def pct (current total : Nat) : Nat :=
  if 0 < total then current * 100 / total else 0

theorem pct_le_100 (current total : Nat) (h : current ≤ total) :
    pct current total ≤ 100 := by
  rw [pct]
  by_cases ht : 0 < total
  · rw [if_pos ht]
    calc current * 100 / total ≤ total * 100 / total :=
          Nat.div_le_div_right (Nat.mul_le_mul_right 100 h)
      _ = 100 := Nat.mul_div_cancel_left 100 ht
  · rw [if_neg ht]
    omega

/-- What C8 asserts of every emitted update, per entry. -/
def ProgressEntryOK (size : Nat) (p : Progress) : Prop :=
  p.total = size ∧ p.percentage = pct p.current p.total

/-- The loop invariant tying a batch state to its emitted trace: the count
never exceeds `size`, every entry reports `total = size`, a current value no
larger than the count at its emission, and the floor percentage; successive
current values are monotone. -/
def BatchTraceInv (size : Nat) (st : BatchState) : Prop :=
  st.processed.length ≤ size
  ∧ (∀ p ∈ st.trace, ProgressEntryOK size p ∧ p.current ≤ st.processed.length)
  ∧ st.trace.Pairwise (fun a b => a.current ≤ b.current)

theorem batch_page_trace_inv (env : Env) (cid : Int) (size : Nat)
    (si hm : Bool) :
    ∀ (page : List TgMessage) (st : BatchState),
      BatchTraceInv size st →
      BatchTraceInv size (batch_page env cid size si hm page st) := by
  intro page
  induction page with
  | nil => intro st h; exact h
  | cons m rest ih =>
      intro st h
      rcases h with ⟨hlen, hentries, hmono⟩
      rw [batch_page]
      by_cases hfull : size ≤ st.processed.length
      · rw [if_pos hfull]
        exact ⟨hlen, hentries, hmono⟩
      · rw [if_neg hfull]
        cases hpm : process_message env m cid si hm with
        | some info =>
            dsimp only
            apply ih
            have hlen1 : (st.processed ++ [info]).length ≤ size := by
              simp only [List.length_append, List.length_cons,
                List.length_nil]
              omega
            refine ⟨hlen1, ?_, ?_⟩
            · intro p hp
              rcases List.mem_append.mp hp with hin | hin
              · rcases hentries p hin with ⟨hok, hcur⟩
                refine ⟨hok, ?_⟩
                simp only [List.length_append]
                omega
              · rcases List.mem_singleton.mp hin with rfl
                exact ⟨⟨rfl, rfl⟩, Nat.le_refl _⟩
            · rw [List.pairwise_append]
              refine ⟨hmono, List.pairwise_singleton _ _, ?_⟩
              intro a ha b hb
              rcases List.mem_singleton.mp hb with rfl
              have := (hentries a ha).2
              show a.current ≤ (st.processed ++ [info]).length
              simp only [List.length_append]
              omega
        | none =>
            dsimp only
            apply ih
            refine ⟨hlen, ?_, ?_⟩
            · intro p hp
              rcases List.mem_append.mp hp with hin | hin
              · exact hentries p hin
              · rcases List.mem_singleton.mp hin with rfl
                exact ⟨⟨rfl, rfl⟩, Nat.le_refl _⟩
            · rw [List.pairwise_append]
              refine ⟨hmono, List.pairwise_singleton _ _, ?_⟩
              intro a ha b hb
              rcases List.mem_singleton.mp hb with rfl
              exact (hentries a ha).2

theorem batch_loop_trace_inv (env : Env) (channel : List TgMessage)
    (cid : Int) (size batch_size : Nat) (si hm : Bool) :
    ∀ (fuel offset : Nat) (st : BatchState),
      BatchTraceInv size st →
      BatchTraceInv size
        (batch_loop env channel cid size batch_size si hm fuel offset st) := by
  intro fuel
  induction fuel with
  | zero => intro offset st h; exact h
  | succ fuel ih =>
      intro offset st h
      rw [batch_loop]
      by_cases hcond : st.processed.length < size
      · rw [if_pos hcond]
        dsimp only
        cases hpage : get_messages channel
            (min batch_size (size - st.processed.length)) offset with
        | nil => exact h
        | cons p ps =>
            dsimp only
            by_cases hshort : (p :: ps).length <
                min batch_size (size - st.processed.length)
            · rw [if_pos hshort]
              exact batch_page_trace_inv env cid size si hm (p :: ps) st h
            · rw [if_neg hshort]
              exact ih _ _ (batch_page_trace_inv env cid size si hm (p :: ps) st h)
      · rw [if_neg hcond]
        exact h

/-- The progress trace a run of the explicit-window sync task emits (empty
when the task fails validation before emitting anything). -/
def sync_task_trace (env : Env) (channel : List TgMessage) (channel_id : Int)
    (sync_chat sync_images : Bool) (size offset batch_size : Nat)
    (idx : Index) : List Progress :=
  match sync_channel_messages_task env channel channel_id sync_chat
      sync_images size offset batch_size idx with
  | .ok out => out.2.2
  | .error _ => []

theorem task_start_trace_inv (channel : List TgMessage) (channel_id : Int)
    (size offset : Nat) :
    BatchTraceInv size (task_start channel channel_id size offset).2 := by
  rw [task_start]
  by_cases hoff : 0 < offset
  · rw [if_pos hoff]
    refine ⟨by simp, ?_, ?_⟩
    · intro p hp
      simp only [List.cons_append, List.nil_append, List.mem_cons,
        List.mem_singleton, List.not_mem_nil, or_false] at hp
      rcases hp with rfl | rfl
      · exact ⟨⟨rfl, rfl⟩, by simp [SyncTask.update_progress]⟩
      · exact ⟨⟨rfl, rfl⟩, by simp [SyncTask.update_progress]⟩
    · simp [List.pairwise_cons, SyncTask.update_progress]
  · rw [if_neg hoff]
    refine ⟨by simp, ?_, ?_⟩
    · intro p hp
      simp only [List.mem_singleton] at hp
      subst hp
      exact ⟨⟨rfl, rfl⟩, by simp [SyncTask.update_progress]⟩
    · exact List.pairwise_singleton _ _

theorem sync_task_trace_eq (env : Env) (channel : List TgMessage)
    (channel_id : Int) (sync_chat sync_images : Bool)
    (size offset batch_size : Nat) (idx : Index)
    (hval : (!sync_chat && !sync_images) = false) :
    sync_task_trace env channel channel_id sync_chat sync_images size offset
        batch_size idx =
      (batch_loop env channel channel_id size batch_size sync_images
          sync_images (channel.length + 1)
          (task_start channel channel_id size offset).1
          (task_start channel channel_id size offset).2).trace ++
        [SyncTask.update_progress
          (batch_loop env channel channel_id size batch_size sync_images
            sync_images (channel.length + 1)
            (task_start channel channel_id size offset).1
            (task_start channel channel_id size offset).2).processed.length
          size "Sync completed successfully"] := by
  simp only [sync_task_trace, sync_channel_messages_task, hval,
    Bool.false_eq_true, if_neg, not_false_iff]

/-- C8: every progress update emitted by the explicit-window sync task
reports `percentage = floor(current/total*100)` when `total > 0` and `0`
when `total = 0`, percentages lie in `[0,100]`, and successive reported
`current` values are non-decreasing over the run; the same holds of the
updates emitted by the smart-sync fan-out for any channel count. -/
theorem progress_updates_within_bounds (env : Env)
    (channel : List TgMessage) (channel_id : Int)
    (sync_chat sync_images : Bool) (size offset batch_size : Nat)
    (idx : Index) :
    (∀ p ∈ sync_task_trace env channel channel_id sync_chat sync_images size
        offset batch_size idx,
        p.percentage = pct p.current p.total ∧ p.percentage ≤ 100)
    ∧ (sync_task_trace env channel channel_id sync_chat sync_images size
        offset batch_size idx).Pairwise (fun a b => a.current ≤ b.current)
    ∧ ∀ n, (∀ p ∈ smart_sync_progress_trace n,
          p.percentage = pct p.current p.total ∧ p.percentage ≤ 100)
        ∧ (smart_sync_progress_trace n).Pairwise
            (fun a b => a.current ≤ b.current) := by
  have hsmart : ∀ n, (∀ p ∈ smart_sync_progress_trace n,
      p.percentage = pct p.current p.total ∧ p.percentage ≤ 100)
      ∧ (smart_sync_progress_trace n).Pairwise
          (fun a b => a.current ≤ b.current) := by
    intro n
    constructor
    · intro p hp
      rw [smart_sync_progress_trace] at hp
      rcases List.mem_cons.mp hp with rfl | hin
      · exact ⟨rfl, pct_le_100 0 n (Nat.zero_le n)⟩
      · rcases List.mem_map.mp hin with ⟨i, hi, rfl⟩
        have hilt : i < n := List.mem_range.mp hi
        refine ⟨rfl, ?_⟩
        exact pct_le_100 (i + 1) n (by omega)
    · rw [smart_sync_progress_trace, List.pairwise_cons]
      constructor
      · intro p hp
        rcases List.mem_map.mp hp with ⟨i, _, rfl⟩
        simp [SmartSyncTask.update_progress]
      · exact List.Pairwise.map _ (fun a b hab => by
          simp only [SmartSyncTask.update_progress]
          omega) (List.pairwise_lt_range n)
  by_cases hval : (!sync_chat && !sync_images) = true
  · have hempty : sync_task_trace env channel channel_id sync_chat
        sync_images size offset batch_size idx = [] := by
      simp [sync_task_trace, sync_channel_messages_task, hval]
    rw [hempty]
    exact ⟨by simp, List.Pairwise.nil, hsmart⟩
  · have hval2 : (!sync_chat && !sync_images) = false := by
      cases hx : (!sync_chat && !sync_images)
      · rfl
      · exact absurd hx hval
    rw [sync_task_trace_eq env channel channel_id sync_chat sync_images size
      offset batch_size idx hval2]
    have hinv := batch_loop_trace_inv env channel channel_id size batch_size
      sync_images sync_images (channel.length + 1)
      (task_start channel channel_id size offset).1
      (task_start channel channel_id size offset).2
      (task_start_trace_inv channel channel_id size offset)
    rcases hinv with ⟨hlen, hentries, hmono⟩
    refine ⟨?_, ?_, hsmart⟩
    · intro p hp
      rcases List.mem_append.mp hp with hin | hin
      · rcases hentries p hin with ⟨⟨htot, hpctq⟩, hcur⟩
        refine ⟨hpctq, ?_⟩
        rw [hpctq, htot]
        exact pct_le_100 _ _ (by omega)
      · rcases List.mem_singleton.mp hin with rfl
        exact ⟨rfl, pct_le_100 _ _ (by omega)⟩
    · rw [List.pairwise_append]
      refine ⟨hmono, List.pairwise_singleton _ _, ?_⟩
      intro a ha b hb
      rcases List.mem_singleton.mp hb with rfl
      have := (hentries a ha).2
      simp only [SyncTask.update_progress]
      omega

/-! ## Bounded-parallelism fan-out (C9)

`smart_sync_task` (smart_sync_tasks.py lines 111-127) creates
`asyncio.Semaphore(max_parallel)` and wraps every per-channel
`smart_sync_channel` call in `async with semaphore:`.  The synchronization
structure is an interleaving system: each unit waits, acquires (possible only
while the counter is positive, decrementing it), runs, and releases
(incrementing the counter).  A unit is "running concurrently" exactly while
it holds the semaphore. -/

/-- The lifecycle of one per-channel unit. -/
inductive UnitState
  | waiting
  | running
  | done
  deriving DecidableEq, Repr

/-- Semaphore counter plus the state of every unit. -/
structure SchedState where
  sem : Nat
  units : List UnitState
  deriving DecidableEq, Repr

/-- Models `asyncio.Semaphore(max_parallel)` with all `n` units queued. -/
def initSched (max_parallel n : Nat) : SchedState :=
  ⟨max_parallel, List.replicate n UnitState.waiting⟩

/-- One scheduler step: a waiting unit acquires the semaphore (only while
the counter is positive), or a running unit finishes and releases it. -/
inductive SchedStep : SchedState → SchedState → Prop
  | acquire (s : SchedState) (i : Nat) (hi : i < s.units.length)
      (hw : s.units.get ⟨i, hi⟩ = UnitState.waiting) (hsem : 0 < s.sem) :
      SchedStep s ⟨s.sem - 1, s.units.set i UnitState.running⟩
  | release (s : SchedState) (i : Nat) (hi : i < s.units.length)
      (hr : s.units.get ⟨i, hi⟩ = UnitState.running) :
      SchedStep s ⟨s.sem + 1, s.units.set i UnitState.done⟩

/-- How many units hold the semaphore (run concurrently). -/
def runningCount (s : SchedState) : Nat :=
  s.units.countP (fun u => u == UnitState.running)

theorem countP_set_add {A : Type} (p : A → Bool) :
    ∀ (l : List A) (i : Nat) (v : A) (hi : i < l.length),
      (l.set i v).countP p + (if p (l.get ⟨i, hi⟩) then 1 else 0) =
        l.countP p + (if p v then 1 else 0) := by
  intro l
  induction l with
  | nil => intro i v hi; cases hi
  | cons a t ih =>
      intro i v hi
      cases i with
      | zero =>
          simp only [List.set_cons_zero, List.countP_cons, List.get]
          omega
      | succ i =>
          have hit : i < t.length := Nat.lt_of_succ_lt_succ hi
          simp only [List.set_cons_succ, List.countP_cons, List.get]
          have := ih i v hit
          omega

/-- The semaphore invariant: held permits plus free permits always equal
`max_parallel`. -/
theorem sched_invariant (max_parallel n : Nat) :
    ∀ s : SchedState,
      Relation.ReflTransGen SchedStep (initSched max_parallel n) s →
      runningCount s + s.sem = max_parallel := by
  intro s hreach
  induction hreach with
  | refl =>
      show runningCount (initSched max_parallel n) + max_parallel = _
      have : runningCount (initSched max_parallel n) = 0 := by
        rw [runningCount, initSched]
        rw [List.countP_eq_zero]
        intro u hu
        rw [List.eq_of_mem_replicate hu]
        decide
      omega
  | @tail b c hstep hlast ih =>
      cases hlast with
      | acquire i hi hw hsem =>
          have hc := countP_set_add (fun u => u == UnitState.running)
            b.units i UnitState.running hi
          rw [hw] at hc
          simp at hc
          show (b.units.set i UnitState.running).countP _ + (b.sem - 1) = _
          rw [runningCount] at ih
          omega
      | release i hi hr =>
          have hc := countP_set_add (fun u => u == UnitState.running)
            b.units i UnitState.done hi
          rw [hr] at hc
          simp at hc
          show (b.units.set i UnitState.done).countP _ + (b.sem + 1) = _
          rw [runningCount] at ih
          omega

/-- C9: for every list of per-channel units and every bound
`max_parallel ∈ {1, 3, 20}` with more units than the bound, no reachable
state of the fan-out has more than `max_parallel` units running
concurrently. -/
theorem scheduler_bounded (max_parallel n : Nat) (s : SchedState)
    (hmp : max_parallel = 1 ∨ max_parallel = 3 ∨ max_parallel = 20)
    (hn : max_parallel < n)
    (hreach : Relation.ReflTransGen SchedStep (initSched max_parallel n) s) :
    runningCount s ≤ max_parallel := by
  have := sched_invariant max_parallel n s hreach
  omega

/-- Witness for C9: the initial state with bound 3 and 4 units. -/
theorem scheduler_bounded_witness : runningCount (initSched 3 4) ≤ 3 :=
  scheduler_bounded 3 4 (initSched 3 4) (Or.inr (Or.inl rfl)) (by omega)
    Relation.ReflTransGen.refl

end Teleye
